import Mathlib

/-!
Shallow embedding of the gree-rs crate (a client for the Gree UDP appliance
protocol) and proofs about the claims of its specification.

Conventions of the embedding:
* bytes are `Nat` values (all concrete byte lists carry values below 256;
  theorems that need the bound take it as a hypothesis, mirroring `u8`);
* time (`std::time::Instant`, `Duration`) is `Nat` ticks;
* `HashMap` is an association list with insert-overwrite semantics;
* network and process effects (UDP sockets, `serde_json`, the `aes` crate
  block cipher) are external collaborators: they enter as explicit
  parameters (oracles) of the embedded functions, exactly at the points the
  source calls them;
* fallible Rust code returning `Result` becomes `Except` / a dedicated
  result inductive; a Rust panic is modelled by a distinguished constructor.
-/

namespace GreeModel

/-- Model of the crate error enum `Error` in src/lib.rs.  Payloads of
foreign error types (serde, base64, io, parse) are dropped; the constructor
`IoErr` renders the source constructor `Io`. -/
inductive Error where
  | SerDe
  | Base64Decode
  | IoErr
  | Send
  | RecvTimeout
  | ParseInt
  | ResponseTimeout
  | MacNotBound (mac : String)
  | NotFound (id : String)
  | InvalidVar (id : String)
  | InvalidValue (var : String) (value : String)
deriving DecidableEq

/-- src/lib.rs, `Error::invalid_var`: `pub fn invalid_var(id: &str) -> Self { Self::NotFound(id.to_owned()) }` -/
def Error.invalid_var (id : String) : Error := Error.NotFound id

/-- src/lib.rs, `Error::not_found`. -/
def Error.not_found (id : String) : Error := Error.NotFound id

/-- src/lib.rs, `Error::mac_not_bound`. -/
def Error.mac_not_bound (mac : String) : Error := Error.MacNotBound mac

/-- Model of `serde_json::Value` (only the shapes the protocol uses). -/
inductive Value where
  | null
  | bool (b : Bool)
  | num (n : Int)
  | str (s : String)
deriving DecidableEq

/-- IP addresses are abstract identifiers for the model. -/
abbrev IpAddr := Nat

abbrev MacAddr := String

/-- src/apdu.rs `GenericMessage` (the outer envelope, deserialized). -/
structure GenericMessage where
  cid : String
  i : Int
  pack : String
  t : String
  tcid : String
  uid : Int
deriving DecidableEq

/-- src/apdu.rs `ScanResponsePack`. -/
structure ScanResponsePack where
  t : String
  cid : String
  bc : String
  brand : String
  catalog : String
  mac : String
  mid : String
  model : String
  name : String
  lock : Int
  series : String
  vender : String
  ver : String
deriving DecidableEq

/-- src/apdu.rs `CommandResponsePack` (response to a Command/write exchange). -/
structure CommandResponsePack where
  t : String
  mac : String
  r : Int
  opt : List String
  p : List Value
  val : List Value
deriving DecidableEq

/-- src/state.rs `Device`: ip, last scan pack, optional session key. -/
structure Device where
  ip : IpAddr
  scan_result : ScanResponsePack
  key : Option String
deriving DecidableEq

/-- Association-list insert with overwrite, modelling `HashMap::insert`
(collecting an iterator of pairs into a `HashMap` folds this in). -/
def alInsert {α β : Type} [DecidableEq α] : List (α × β) → α → β → List (α × β)
  | [], k, v => [(k, v)]
  | (k', v') :: rest, k, v =>
    if k = k' then (k, v) :: rest else (k', v') :: alInsert rest k v

/-- Association-list lookup, modelling `HashMap::get` / `get_mut` hit test. -/
def alLookup {α β : Type} [DecidableEq α] : List (α × β) → α → Option β
  | [], _ => none
  | (k, v) :: rest, x => if x = k then some v else alLookup rest x

/-- src/state.rs `GreeState`: the device registry, MAC to Device. -/
structure GreeState where
  devices : List (MacAddr × Device)
deriving DecidableEq

/-- src/state.rs `GreeState::scan_ind`: replaces the whole device map with
one entry per scan-result item, keyed by the reported MAC, with `key: None`.
Collecting the iterator into a fresh `HashMap` means later duplicates of a
MAC overwrite earlier ones. -/
def GreeState.scan_ind (_s : GreeState)
    (scan_result : List (IpAddr × GenericMessage × ScanResponsePack)) : GreeState :=
  { devices :=
      scan_result.foldl
        (fun m x => alInsert m x.2.2.mac { ip := x.1, scan_result := x.2.2, key := none }) [] }

/-- src/state.rs `GreeClientConfig` (durations and addresses as Nat). -/
structure GreeClientConfig where
  buffer_size : Nat
  recv_timeout : Nat
  bind_addr : Nat
  max_count : Nat
  bcast_addr : Nat
deriving DecidableEq

/-- src/state.rs `GreeConfig`. -/
structure GreeConfig where
  client_config : GreeClientConfig
  min_scan_age : Nat
  max_scan_age : Nat
  aliases : List (String × MacAddr)
deriving DecidableEq

/-- The state part of `GreeInternal` (src/sync_client.rs, src/async_client.rs):
registry, config and the last-scan timestamp.  The low-level client `c`
(socket) is not state in the model; the network enters as an oracle. -/
structure GreeInternalSt where
  s : GreeState
  cfg : GreeConfig
  scan_ts : Option Nat
deriving DecidableEq

/-- The `allow` computation inside `GreeInternal::scan` (both clients,
identical code): scan is allowed when no scan ever ran, or
`now >= w + max_scan_age`, or `now >= w + min_scan_age` and forced. -/
def allowScan (scan_ts : Option Nat) (cfg : GreeConfig) (now : Nat) (forced : Bool) : Bool :=
  match scan_ts with
  | none => true
  | some w =>
    if now ≥ w + cfg.max_scan_age then true
    else if now ≥ w + cfg.min_scan_age ∧ forced = true then true
    else false

/-- src/sync_client.rs lines 139-154 and src/async_client.rs lines 127-142,
`GreeInternal::scan(forced)`.  `now` is the `Instant::now()` read at entry;
`netScan` is the outcome of the network call `self.c.scan()`; `now2` is the
second `Instant::now()` read after a successful network scan.  When `allow`
is false the network is not consulted, so the result ignores `netScan`. -/
def GreeInternal.scan (g : GreeInternalSt) (now : Nat) (forced : Bool)
    (netScan : Except Error (List (IpAddr × GenericMessage × ScanResponsePack)))
    (now2 : Nat) : Except Error GreeInternalSt :=
  if allowScan g.scan_ts g.cfg now forced then
    match netScan with
    | Except.error e => Except.error e
    | Except.ok result =>
        Except.ok { g with s := g.s.scan_ind result, scan_ts := some now2 }
  else Except.ok g

/-- src/sync_client.rs lines 289-291, `Gree::scan`: a forced internal scan. -/
def Gree.scan (g : GreeInternalSt) (now : Nat)
    (netScan : Except Error (List (IpAddr × GenericMessage × ScanResponsePack)))
    (now2 : Nat) : Except Error GreeInternalSt :=
  GreeInternal.scan g now true netScan now2

/-- src/sync_client.rs lines 219-225 and src/async_client.rs lines 206-212,
`GreeInternal::apply_retrying`.  The state type `σ` abstracts the mutable
pair (`self`, `op`); `scanF b` abstracts `self.scan(b)` and `ap` abstracts
`self.apply(target, &mut op)`; both return the mutated state next to the
`Result<()>` value, since a failing call can still have mutated state. -/
def apply_retrying {σ E : Type} (scanF : Bool → σ → σ × Except E Unit)
    (ap : σ → σ × Except E Unit) (s0 : σ) : σ × Except E Unit :=
  match scanF false s0 with
  | (s1, Except.error e) => (s1, Except.error e)
  | (s1, Except.ok _) =>
    match ap s1 with
    | (s2, Except.ok _) => (s2, Except.ok ())
    | (s2, Except.error _) =>
      match scanF true s2 with
      | (s3, Except.error e) => (s3, Except.error e)
      | (s3, Except.ok _) => ap s3

/-- Instrumentation: the same apply step on a state extended with a counter
of apply attempts. -/
def countAp {σ E : Type} (ap : σ → σ × Except E Unit) :
    σ × Nat → (σ × Nat) × Except E Unit :=
  fun sn =>
    let r := ap sn.1
    ((r.1, sn.2 + 1), r.2)

/-- Instrumentation: the same scan step, leaving the attempt counter alone. -/
def countScan {σ E : Type} (scanF : Bool → σ → σ × Except E Unit) :
    Bool → σ × Nat → (σ × Nat) × Except E Unit :=
  fun b sn =>
    let r := scanF b sn.1
    ((r.1, sn.2), r.2)

/-- Variable names (src/apdu.rs `vars::VarName`, interned static strings). -/
abbrev VarName := String

/-- src/apdu.rs `vars::name_of`: internalizes a variable name by matching it
against the fixed catalog of twenty names. -/
def name_of (n : String) : Option VarName :=
  if n = "Pow" then some "Pow"
  else if n = "Mod" then some "Mod"
  else if n = "SetTem" then some "SetTem"
  else if n = "TemUn" then some "TemUn"
  else if n = "WdSpd" then some "WdSpd"
  else if n = "Air" then some "Air"
  else if n = "Blo" then some "Blo"
  else if n = "Health" then some "Health"
  else if n = "SwhSlp" then some "SwhSlp"
  else if n = "Lig" then some "Lig"
  else if n = "SwingLfRig" then some "SwingLfRig"
  else if n = "SwUpDn" then some "SwUpDn"
  else if n = "Quiet" then some "Quiet"
  else if n = "Tur" then some "Tur"
  else if n = "StHt" then some "StHt"
  else if n = "HeatCoolType" then some "HeatCoolType"
  else if n = "TemRec" then some "TemRec"
  else if n = "SvSt" then some "SvSt"
  else if n = "TemSen" then some "TemSen"
  else if n = "time" then some "time"
  else none

/-- src/state.rs `SimpleNetVar`: a value with a read-pending and a
write-pending flag. -/
structure SimpleNetVar where
  value : Value
  net_read_pending : Bool
  net_write_pending : Bool
deriving DecidableEq

/-- src/state.rs `impl NetVar for SimpleNetVar`, `net_set`: stores the value
received from the network and clears the read-pending flag. -/
def SimpleNetVar.net_set (nv : SimpleNetVar) (v : Value) : SimpleNetVar :=
  { nv with value := v, net_read_pending := false }

/-- src/state.rs `net_get`. -/
def SimpleNetVar.net_get (nv : SimpleNetVar) : Value := nv.value

/-- src/state.rs `is_net_read_pending`. -/
def SimpleNetVar.is_net_read_pending (nv : SimpleNetVar) : Bool := nv.net_read_pending

/-- src/state.rs `is_net_write_pending`. -/
def SimpleNetVar.is_net_write_pending (nv : SimpleNetVar) : Bool := nv.net_write_pending

/-- src/state.rs `clear_net_write_pending`. -/
def SimpleNetVar.clear_net_write_pending (nv : SimpleNetVar) : SimpleNetVar :=
  { nv with net_write_pending := false }

/-- src/state.rs `NetVarBag<SimpleNetVar>` as an association list (the spec
models the one concrete `NetVar` implementation, per its design notes). -/
abbrev NetVarBag := List (VarName × SimpleNetVar)

/-- The write-pending collection pass at the top of `net_write`: the source
pushes names and values into two parallel vectors in one iteration; here the
pairs are collected and the two vectors are the two projections. -/
def pendingWrites (bag : NetVarBag) : List (VarName × Value) :=
  bag.filterMap fun p =>
    if p.2.is_net_write_pending then some (p.1, p.2.net_get) else none

/-- Update of the slot of name `n` (the first entry with that key, as in
`HashMap::get_mut` on a map with unique keys); absent keys leave the bag
unchanged at lookup time, so this is only applied after a lookup hit. -/
def bagUpdate : NetVarBag → VarName → (SimpleNetVar → SimpleNetVar) → NetVarBag
  | [], _, _ => []
  | (k, nv) :: rest, n, f =>
    if k = n then (k, f nv) :: rest else (k, nv) :: bagUpdate rest n f

/-- The response-application loop of `net_write`: for each `(n, v)` in
`pack.opt.zip(pack.p)`, if `name_of(n)` resolves and the bag holds that
name (the `get_mut` hit), clear the write-pending flag and `net_set` the
paired `p` value. -/
def writeFold : NetVarBag → List (String × Value) → NetVarBag
  | b, [] => b
  | b, pr :: rest =>
    writeFold
      (match name_of pr.1 with
       | none => b
       | some vn =>
         if (alLookup b vn).isSome then
           bagUpdate b vn (fun nv => (nv.clear_net_write_pending).net_set pr.2)
         else b)
      rest

/-- src/sync_client.rs lines 180-200 and src/async_client.rs lines 168-188,
`GreeInternal::net_write`.  The Command exchange
`self.c.setvars(dev.ip, mac, key, &names, &values)` is the oracle `exch`,
applied to the device ip, the session key and the two pending vectors; the
bag is returned instead of mutated in place. -/
def GreeInternal.net_write (mac : String) (dev : Device)
    (exch : IpAddr → String → List VarName → List Value → Except Error CommandResponsePack)
    (bag : NetVarBag) : Except Error NetVarBag :=
  match dev.key with
  | none => Except.error (Error.mac_not_bound mac)
  | some key =>
    let pending := pendingWrites bag
    if pending = [] then Except.ok bag
    else
      match exch dev.ip key (pending.map Prod.fst) (pending.map Prod.snd) with
      | Except.error e => Except.error e
      | Except.ok pack => Except.ok (writeFold bag (pack.opt.zip pack.p))

/-- One event seen by the receive side of `GreeClient::scan`: either a
datagram from some address (already parsed into the envelope by the receive
path) or an expiry of the receive timeout.  An exhausted event list also
stands for a timeout. -/
inductive RecvEv where
  | datagram (addr : IpAddr) (gm : GenericMessage)
  | timeout
deriving DecidableEq

/-- The receive loop of `GreeClient::scan` (src/sync_client.rs lines 86-94,
src/async_client.rs lines 74-82): at most `max_count` iterations; a timeout
breaks with the devices collected so far; a datagram is passed to
`handle_response(addr, &gm.pack, GENERIC_KEY)` — abstracted as the oracle
`h` — whose failure aborts the whole scan; its success is accumulated. -/
def scanLoop (h : IpAddr → GenericMessage → Except Error ScanResponsePack) :
    Nat → List RecvEv → List (IpAddr × GenericMessage × ScanResponsePack) →
    Except Error (List (IpAddr × GenericMessage × ScanResponsePack))
  | 0, _, acc => Except.ok acc
  | _ + 1, [], acc => Except.ok acc
  | _ + 1, RecvEv.timeout :: _, acc => Except.ok acc
  | n + 1, RecvEv.datagram a gm :: rest, acc =>
    match h a gm with
    | Except.error e => Except.error e
    | Except.ok pack => scanLoop h n rest (acc ++ [(a, gm, pack)])

/-- src/sync_client.rs lines 81-96 and src/async_client.rs lines 69-84,
`GreeClient::scan`: broadcast the scan request, then run the receive loop
with an empty accumulator. -/
def GreeClient.scan (h : IpAddr → GenericMessage → Except Error ScanResponsePack)
    (events : List RecvEv) (max_count : Nat) :
    Except Error (List (IpAddr × GenericMessage × ScanResponsePack)) :=
  scanLoop h max_count events []

/-! The envelope codec of src/apdu.rs.  The AES-128 block maps come from the
external `aes` crate and enter the model as the explicit block-map
parameters of `encode_request` / `decode_response`; base64 (the external
`base64` crate, `general_purpose::STANDARD` engine: the standard alphabet,
canonical padding required) is embedded concretely below. -/

/-- Character of a six-bit group in the standard base64 alphabet. -/
def b64chr (n : Nat) : Char :=
  if n < 26 then Char.ofNat (65 + n)
  else if n < 52 then Char.ofNat (97 + (n - 26))
  else if n < 62 then Char.ofNat (48 + (n - 52))
  else if n = 62 then Char.ofNat 43
  else Char.ofNat 47

/-- Six-bit group of a character of the standard base64 alphabet. -/
def b64idx (c : Char) : Option Nat :=
  if 65 ≤ c.toNat ∧ c.toNat ≤ 90 then some (c.toNat - 65)
  else if 97 ≤ c.toNat ∧ c.toNat ≤ 122 then some (c.toNat - 97 + 26)
  else if 48 ≤ c.toNat ∧ c.toNat ≤ 57 then some (c.toNat - 48 + 52)
  else if c.toNat = 43 then some 62
  else if c.toNat = 47 then some 63
  else none

/-- Standard base64 encoding of a byte list, with padding. -/
def b64encode : List Nat → List Char
  | [] => []
  | [b0] => [b64chr (b0 / 4), b64chr (b0 % 4 * 16), '=', '=']
  | [b0, b1] => [b64chr (b0 / 4), b64chr (b0 % 4 * 16 + b1 / 16), b64chr (b1 % 16 * 4), '=']
  | b0 :: b1 :: b2 :: rest =>
    b64chr (b0 / 4) :: b64chr (b0 % 4 * 16 + b1 / 16) ::
    b64chr (b1 % 16 * 4 + b2 / 64) :: b64chr (b2 % 64) :: b64encode rest

/-- Standard base64 decoding: groups of four characters, canonical padding
only at the end, trailing bits required to be zero (the checks the
`base64` crate STANDARD engine performs); `none` models `DecodeError`. -/
def b64decode : List Char → Option (List Nat)
  | [] => some []
  | c0 :: c1 :: c2 :: c3 :: rest =>
    if c2 = '=' then
      if c3 = '=' ∧ rest = [] then
        match b64idx c0, b64idx c1 with
        | some s0, some s1 => if s1 % 16 = 0 then some [s0 * 4 + s1 / 16] else none
        | _, _ => none
      else none
    else if c3 = '=' then
      if rest = [] then
        match b64idx c0, b64idx c1, b64idx c2 with
        | some s0, some s1, some s2 =>
          if s2 % 4 = 0 then some [s0 * 4 + s1 / 16, s1 % 16 * 16 + s2 / 4] else none
        | _, _, _ => none
      else none
    else
      match b64idx c0, b64idx c1, b64idx c2, b64idx c3 with
      | some s0, some s1, some s2, some s3 =>
        match b64decode rest with
        | some tail =>
          some ((s0 * 4 + s1 / 16) :: (s1 % 16 * 16 + s2 / 4) :: (s2 % 4 * 64 + s3) :: tail)
        | none => none
      | _, _, _, _ => none
  | _ => none

/-- src/apdu.rs `pkcs7_pad`: append `pad_len = blocksize - len % blocksize`
copies of `pad_len` (a full extra block when the length is already a
multiple of the block size). -/
def pkcs7_pad (payload : List Nat) (blocksize : Nat) : List Nat :=
  let pad_len := blocksize - payload.length % blocksize
  payload ++ List.replicate pad_len pad_len

/-- src/apdu.rs `pkcs7_unpad`: read the trailing byte `b` and pop `b` bytes
(no validation of the other padding bytes; popping an empty vector is a
no-op, so more than `length` pops just empty the list). -/
def pkcs7_unpad (payload : List Nat) : List Nat :=
  match payload.getLast? with
  | none => payload
  | some b => payload.take (payload.length - b)

/-- The ECB block loop shared by `encode_request` and `decode_response`:
`for pos in (0..payload.len()).step_by(16)` re-slices `payload[pos..pos+16]`
and applies the block map.  `fuel` bounds the iterations (the caller passes
the list length, which always suffices); `none` models the slice-range
panic that fires when a non-multiple-of-16 tail remains. -/
def ecbGo (f : List Nat → List Nat) : Nat → List Nat → Option (List Nat)
  | _, [] => some []
  | 0, _ :: _ => none
  | fuel + 1, b :: bs =>
    if (b :: bs).length < 16 then none
    else
      match ecbGo f fuel ((b :: bs).drop 16) with
      | none => none
      | some tl => some (f ((b :: bs).take 16) ++ tl)

/-- The ECB loop at its call sites, with sufficient fuel. -/
def ecbLoop (f : List Nat → List Nat) (bs : List Nat) : Option (List Nat) :=
  ecbGo f bs.length bs

/-- Continuation byte test for UTF-8. -/
def isCont (c : Nat) : Bool := decide (128 ≤ c ∧ c ≤ 191)

/-- Admissible second byte of a three-byte UTF-8 sequence with lead `b`. -/
def utf8Cont2 (b c : Nat) : Bool :=
  if b = 224 then decide (160 ≤ c ∧ c ≤ 191)
  else if b = 237 then decide (128 ≤ c ∧ c ≤ 159)
  else isCont c

/-- Admissible second byte of a four-byte UTF-8 sequence with lead `b`. -/
def utf8Cont4 (b c : Nat) : Bool :=
  if b = 240 then decide (144 ≤ c ∧ c ≤ 191)
  else if b = 244 then decide (128 ≤ c ∧ c ≤ 143)
  else isCont c

/-- UTF-8 encoding of the replacement character U+FFFD. -/
def utf8Repl : List Nat := [239, 191, 189]

/-- Worker of the byte-level model of `String::from_utf8_lossy`: valid
sequences are copied; a maximal subpart of an ill-formed sequence is
replaced by one replacement character, resuming at the offending byte; a
truncated valid prefix at the end of input becomes one replacement
character.  `fuel` bounds the steps; the caller passes the length, which
always suffices because each step consumes at least one byte. -/
def utf8LossyGo : Nat → List Nat → List Nat
  | _, [] => []
  | 0, _ :: _ => []
  | fuel + 1, b :: rest =>
    if b ≤ 127 then b :: utf8LossyGo fuel rest
    else if 194 ≤ b ∧ b ≤ 223 then
      match rest with
      | [] => utf8Repl
      | c :: rest2 =>
        if isCont c then b :: c :: utf8LossyGo fuel rest2
        else utf8Repl ++ utf8LossyGo fuel (c :: rest2)
    else if 224 ≤ b ∧ b ≤ 239 then
      match rest with
      | [] => utf8Repl
      | c :: rest2 =>
        if utf8Cont2 b c then
          match rest2 with
          | [] => utf8Repl
          | d :: rest3 =>
            if isCont d then b :: c :: d :: utf8LossyGo fuel rest3
            else utf8Repl ++ utf8LossyGo fuel (d :: rest3)
        else utf8Repl ++ utf8LossyGo fuel (c :: rest2)
    else if 240 ≤ b ∧ b ≤ 244 then
      match rest with
      | [] => utf8Repl
      | c :: rest2 =>
        if utf8Cont4 b c then
          match rest2 with
          | [] => utf8Repl
          | d :: rest3 =>
            if isCont d then
              match rest3 with
              | [] => utf8Repl
              | e :: rest4 =>
                if isCont e then b :: c :: d :: e :: utf8LossyGo fuel rest4
                else utf8Repl ++ utf8LossyGo fuel (e :: rest4)
            else utf8Repl ++ utf8LossyGo fuel (d :: rest3)
        else utf8Repl ++ utf8LossyGo fuel (c :: rest2)
    else utf8Repl ++ utf8LossyGo fuel rest

/-- Byte-level model of `String::from_utf8_lossy`. -/
def utf8Lossy (l : List Nat) : List Nat := utf8LossyGo l.length l

/-- Outcome of `decode_response`: an Ok string (as bytes), the
`Error::Base64Decode` failure (the CryptoError of the spec taxonomy), or a
panic of the block loop on a ciphertext length that is not a multiple
of 16. -/
inductive DecodeResult where
  | ok (bytes : List Nat)
  | cryptoError
  | panicked
deriving DecidableEq

/-- src/apdu.rs lines 642-657 `decode_response`, with the AES-128 decrypt
block map of the 16-byte key as the parameter `decBlock`: base64-decode the
pack (failure is `Error::Base64Decode`), decrypt each 16-byte block in
place (a ragged tail panics on the slice), strip PKCS7 padding, and return
the bytes of `String::from_utf8_lossy`. -/
def decode_response (decBlock : List Nat → List Nat) (pack : List Char) : DecodeResult :=
  match b64decode pack with
  | none => DecodeResult.cryptoError
  | some payload =>
    match ecbLoop decBlock payload with
    | none => DecodeResult.panicked
    | some plain => DecodeResult.ok (utf8Lossy (pkcs7_unpad plain))

/-- src/apdu.rs lines 659-674 `encode_request`, with the AES-128 encrypt
block map of the 16-byte key as the parameter `encBlock`: PKCS7-pad to the
16-byte boundary, encrypt each block, base64-encode.  The padded payload
always has a multiple-of-16 length, so the block loop never panics; the
impossible panic is `none`. -/
def encode_request (encBlock : List Nat → List Nat) (payload : List Nat) :
    Option (List Char) :=
  match ecbLoop encBlock (pkcs7_pad payload 16) with
  | none => none
  | some ct => some (b64encode ct)

/-- The composition the round-trip property speaks about:
`decode_response(encode_request(payload, key), key)`. -/
def roundTrip (encBlock decBlock : List Nat → List Nat) (payload : List Nat) :
    DecodeResult :=
  match encode_request encBlock payload with
  | none => DecodeResult.panicked
  | some ct => decode_response decBlock ct

/-! Concrete inputs used by the counterexamples and witnesses below. -/

/-- A concrete scan response pack reporting MAC "a1b2". -/
def packA : ScanResponsePack :=
  { t := "dev", cid := "", bc := "", brand := "", catalog := "", mac := "a1b2"
  , mid := "", model := "", name := "", lock := 0, series := "", vender := ""
  , ver := "" }

/-- A concrete envelope message. -/
def gmA : GenericMessage :=
  { cid := "", i := 0, pack := "", t := "pack", tcid := "", uid := 0 }

/-- A concrete configuration with the default scan ages of the source
(min 60 s, max 24 h). -/
def cfgA : GreeConfig :=
  { client_config :=
      { buffer_size := 2048, recv_timeout := 3, bind_addr := 0, max_count := 10
      , bcast_addr := 0 }
  , min_scan_age := 60, max_scan_age := 86400, aliases := [] }

/-- A concrete client state whose last scan happened at tick 0. -/
def stA : GreeInternalSt :=
  { s := { devices := [] }, cfg := cfgA, scan_ts := some 0 }

/-! Theorems. -/

/-- The branch condition of the internal scan, spelled out. -/
lemma allowScan_iff (ts : Option Nat) (cfg : GreeConfig) (now : Nat) (forced : Bool) :
    allowScan ts cfg now forced = true ↔
      (ts = none ∨ ∃ w, ts = some w ∧
        (now ≥ w + cfg.max_scan_age ∨ (now ≥ w + cfg.min_scan_age ∧ forced = true))) := by
  cases ts with
  | none => simp [allowScan]
  | some w =>
    constructor
    · intro h
      by_cases h1 : now ≥ w + cfg.max_scan_age
      · exact Or.inr ⟨w, rfl, Or.inl h1⟩
      · by_cases h2 : now ≥ w + cfg.min_scan_age ∧ forced = true
        · exact Or.inr ⟨w, rfl, Or.inr h2⟩
        · exfalso
          simp only [allowScan, if_neg h1, if_neg h2] at h
          exact Bool.false_ne_true h
    · rintro (h | ⟨w', hw, hcond⟩)
      · exact Option.noConfusion h
      · cases hw
        rcases hcond with h | h
        · simp [allowScan, h]
        · simp only [allowScan]
          split_ifs <;> simp_all

/-- The internal scan as one equation: the allowed branch maps the network
outcome into the state update, the throttled branch returns the state
unchanged without consulting the network. -/
lemma scan_eq (g : GreeInternalSt) (now : Nat) (forced : Bool)
    (netScan : Except Error (List (IpAddr × GenericMessage × ScanResponsePack)))
    (now2 : Nat) :
    GreeInternal.scan g now forced netScan now2 =
      if allowScan g.scan_ts g.cfg now forced then
        Except.map (fun result => { g with s := g.s.scan_ind result, scan_ts := some now2 })
          netScan
      else Except.ok g := by
  unfold GreeInternal.scan
  split
  · cases netScan <;> rfl
  · rfl

/-- C1: `GreeInternal::scan(forced)` executes a network scan and resets the
scan timestamp iff no prior scan ran, or `now` is at least `max_scan_age`
past the last scan, or it is at least `min_scan_age` past and the call is
forced; in every other case it is a no-op on the device map and timestamp
that returns Ok regardless of the network.  (Ages compare as
`now >= last + age`, the exact comparison of the source; with the monotone
`Instant` clock this is `now - last >= age`.) -/
theorem c1_scan_throttling (g : GreeInternalSt) (now : Nat) (forced : Bool)
    (netScan : Except Error (List (IpAddr × GenericMessage × ScanResponsePack)))
    (now2 : Nat) :
    (GreeInternal.scan g now forced netScan now2 =
      if allowScan g.scan_ts g.cfg now forced then
        Except.map (fun result => { g with s := g.s.scan_ind result, scan_ts := some now2 })
          netScan
      else Except.ok g) ∧
    (allowScan g.scan_ts g.cfg now forced = true ↔
      (g.scan_ts = none ∨ ∃ w, g.scan_ts = some w ∧
        (now ≥ w + g.cfg.max_scan_age ∨ (now ≥ w + g.cfg.min_scan_age ∧ forced = true)))) :=
  ⟨scan_eq g now forced netScan now2, allowScan_iff g.scan_ts g.cfg now forced⟩

/-- C4 counterexample: with the default ages, a public `Gree::scan` call 10
ticks after a previous scan is a complete no-op: the state (device map and
`scan_ts = some 0`) is returned unchanged and the scan result that the
network would have delivered is ignored, although it would have changed the
device map.  This refutes the claim that every `scan()` call executes a
network scan and resets the timestamp. -/
theorem c4_counterexample :
    Gree.scan stA 10 (Except.ok [(1, gmA, packA)]) 10 = Except.ok stA ∧
    stA.scan_ts = some 0 ∧
    (stA.s.scan_ind [(1, gmA, packA)]).devices ≠ stA.s.devices := by
  refine ⟨rfl, rfl, ?_⟩
  decide

/-- C4 as amended: the public `scan()` is a forced internal scan — it
bypasses only the `max_scan_age` gate, not the `min_scan_age` gate: it
executes iff no scan ever ran or the last scan is at least `min_scan_age`
(or `max_scan_age`) old; a call within `min_scan_age` of the last scan is a
no-op returning Ok. -/
theorem c4_amended (g : GreeInternalSt) (now : Nat)
    (netScan : Except Error (List (IpAddr × GenericMessage × ScanResponsePack)))
    (now2 : Nat) :
    (Gree.scan g now netScan now2 = GreeInternal.scan g now true netScan now2) ∧
    (allowScan g.scan_ts g.cfg now true = true ↔
      (g.scan_ts = none ∨ ∃ w, g.scan_ts = some w ∧
        (now ≥ w + g.cfg.max_scan_age ∨ now ≥ w + g.cfg.min_scan_age))) := by
  refine ⟨rfl, ?_⟩
  simpa using allowScan_iff g.scan_ts g.cfg now true

/-- C9: the helper `Error::invalid_var` builds the `NotFound` variant, not
the `InvalidVar` variant. -/
theorem c9_invalid_var (id : String) :
    Error.invalid_var id = Error.NotFound id ∧
    ∀ s, Error.invalid_var id ≠ Error.InvalidVar s := by
  refine ⟨rfl, ?_⟩
  intro s h
  exact Error.noConfusion h

/-- C9 witness at a concrete identifier. -/
theorem c9_witness :
    Error.invalid_var "SetTemm" = Error.NotFound "SetTemm" ∧
    Error.invalid_var "SetTemm" ≠ Error.InvalidVar "SetTemm" :=
  ⟨(c9_invalid_var "SetTemm").1, (c9_invalid_var "SetTemm").2 "SetTemm"⟩

/-- Keys after an insert-overwrite: the inserted key joins the key list. -/
lemma mem_keys_alInsert {α β : Type} [DecidableEq α]
    (m : List (α × β)) (k : α) (v : β) (x : α) :
    x ∈ (alInsert m k v).map Prod.fst ↔ x = k ∨ x ∈ m.map Prod.fst := by
  induction m with
  | nil => simp [alInsert]
  | cons p rest ih =>
    obtain ⟨k', v'⟩ := p
    by_cases hk : k = k'
    · subst hk
      simp [alInsert]
    · simp only [alInsert, if_neg hk, List.map_cons, List.mem_cons, ih]
      tauto

/-- Insert-overwrite keeps the key list duplicate-free. -/
lemma nodup_keys_alInsert {α β : Type} [DecidableEq α]
    (m : List (α × β)) (k : α) (v : β) (h : (m.map Prod.fst).Nodup) :
    ((alInsert m k v).map Prod.fst).Nodup := by
  induction m with
  | nil => simp [alInsert]
  | cons p rest ih =>
    obtain ⟨k', v'⟩ := p
    simp only [List.map_cons, List.nodup_cons] at h
    by_cases hk : k = k'
    · subst hk
      simpa [alInsert] using h
    · simp only [alInsert, if_neg hk, List.map_cons, List.nodup_cons]
      exact ⟨by rw [mem_keys_alInsert]; rintro (rfl | hm) <;> simp_all, ih h.2⟩

/-- Every entry after an insert-overwrite is the new pair or an old entry. -/
lemma mem_alInsert {α β : Type} [DecidableEq α]
    (m : List (α × β)) (k : α) (v : β) (p : α × β) (hp : p ∈ alInsert m k v) :
    p = (k, v) ∨ p ∈ m := by
  induction m with
  | nil => simpa [alInsert] using hp
  | cons q rest ih =>
    obtain ⟨k', v'⟩ := q
    by_cases hk : k = k'
    · subst hk
      rcases (by simpa [alInsert] using hp : p = (k, v) ∨ p ∈ rest) with h | h
      · exact Or.inl h
      · exact Or.inr (List.mem_cons_of_mem _ h)
    · rcases (by simpa [alInsert, if_neg hk] using hp :
          p = (k', v') ∨ p ∈ alInsert rest k v) with h | h
      · exact Or.inr (by simp [h])
      · rcases ih h with h' | h'
        · exact Or.inl h'
        · exact Or.inr (List.mem_cons_of_mem _ h')

/-- The registry-building fold step of `scan_ind`. -/
def scanStep (m : List (MacAddr × Device)) (x : IpAddr × GenericMessage × ScanResponsePack) :
    List (MacAddr × Device) :=
  alInsert m x.2.2.mac { ip := x.1, scan_result := x.2.2, key := none }

/-- Keys of the `scan_ind` fold: the initial keys plus the scanned MACs. -/
lemma scanFold_keys (l : List (IpAddr × GenericMessage × ScanResponsePack)) :
    ∀ (init : List (MacAddr × Device)) (x : MacAddr),
      x ∈ (l.foldl scanStep init).map Prod.fst ↔
        x ∈ init.map Prod.fst ∨ x ∈ l.map (fun y => y.2.2.mac) := by
  induction l with
  | nil => simp
  | cons y rest ih =>
    intro init x
    simp only [List.foldl_cons, List.map_cons, List.mem_cons, ih, scanStep,
      mem_keys_alInsert]
    tauto

/-- The `scan_ind` fold keeps keys duplicate-free. -/
lemma scanFold_nodup (l : List (IpAddr × GenericMessage × ScanResponsePack)) :
    ∀ (init : List (MacAddr × Device)), (init.map Prod.fst).Nodup →
      ((l.foldl scanStep init).map Prod.fst).Nodup := by
  induction l with
  | nil => exact fun init h => h
  | cons y rest ih =>
    intro init h
    exact ih _ (nodup_keys_alInsert _ _ _ h)

/-- Every device the `scan_ind` fold produces has no session key, provided
the initial map has none (the fold starts from the empty map). -/
lemma scanFold_key_none (l : List (IpAddr × GenericMessage × ScanResponsePack)) :
    ∀ (init : List (MacAddr × Device)), (∀ kv ∈ init, kv.2.key = none) →
      ∀ kv ∈ l.foldl scanStep init, kv.2.key = none := by
  induction l with
  | nil => exact fun init h => h
  | cons y rest ih =>
    intro init h
    refine ih _ ?_
    intro kv hkv
    rcases mem_alInsert _ _ _ _ hkv with h' | h'
    · rw [h']
    · exact h kv h'

/-- C3: `GreeState::scan_ind` replaces the device map wholesale: the new map
has duplicate-free keys, its keys are exactly the MACs appearing in the scan
result, every entry has `key = None` (a rebound device that reappears loses
its session key), and the result does not depend on the previous state at
all (so every device absent from the result is gone). -/
theorem c3_scan_ind_replaces (s : GreeState)
    (result : List (IpAddr × GenericMessage × ScanResponsePack)) :
    ((s.scan_ind result).devices.map Prod.fst).Nodup ∧
    (∀ mac, mac ∈ (s.scan_ind result).devices.map Prod.fst ↔
      mac ∈ result.map (fun y => y.2.2.mac)) ∧
    (∀ kv ∈ (s.scan_ind result).devices, kv.2.key = none) ∧
    (∀ s' : GreeState, s.scan_ind result = s'.scan_ind result) := by
  refine ⟨?_, ?_, ?_, fun s' => rfl⟩
  · exact scanFold_nodup result [] (by simp)
  · intro mac
    simpa using scanFold_keys result [] mac
  · exact scanFold_key_none result [] (by simp)

/-- C3 witness: a scan result with a duplicate MAC and a state that
previously held a bound device absent from the result. -/
theorem c3_witness :
    ((GreeState.mk [("old", { ip := 9, scan_result := packA, key := some "k" })]).scan_ind
        [(1, gmA, packA), (2, gmA, packA)]).devices.map Prod.fst = ["a1b2"] ∧
    (∀ kv ∈ ((GreeState.mk [("old", { ip := 9, scan_result := packA, key := some "k" })]).scan_ind
        [(1, gmA, packA), (2, gmA, packA)]).devices, kv.2.key = none) := by
  constructor
  · decide
  · exact (c3_scan_ind_replaces
      (GreeState.mk [("old", { ip := 9, scan_result := packA, key := some "k" })])
      [(1, gmA, packA), (2, gmA, packA)]).2.2.1

/-- C2: control flow of `apply_retrying`.  After the initial unforced scan,
a successful first apply attempt returns Ok immediately; a failed first
attempt triggers one forced scan and exactly one further apply attempt
whose outcome — success or failure — is returned unchanged; a failing scan
is propagated without (further) apply attempts.  The instrumented run
(attempt counter threaded through the same definition) shows there are
never more than two apply attempts, and exactly one when the first attempt
succeeds. -/
theorem c2_apply_retrying {σ E : Type} (scanF : Bool → σ → σ × Except E Unit)
    (ap : σ → σ × Except E Unit) (s0 : σ) :
    (∀ s1 e, scanF false s0 = (s1, Except.error e) →
      apply_retrying scanF ap s0 = (s1, Except.error e)) ∧
    (∀ s1 s2, scanF false s0 = (s1, Except.ok ()) → ap s1 = (s2, Except.ok ()) →
      apply_retrying scanF ap s0 = (s2, Except.ok ())) ∧
    (∀ s1 s2 e s3, scanF false s0 = (s1, Except.ok ()) → ap s1 = (s2, Except.error e) →
      scanF true s2 = (s3, Except.ok ()) →
      apply_retrying scanF ap s0 = ap s3) ∧
    (∀ s1 s2 e s3 e2, scanF false s0 = (s1, Except.ok ()) → ap s1 = (s2, Except.error e) →
      scanF true s2 = (s3, Except.error e2) →
      apply_retrying scanF ap s0 = (s3, Except.error e2)) ∧
    ((apply_retrying (countScan scanF) (countAp ap) (s0, 0)).1.2 ≤ 2) ∧
    (∀ s1 s2, scanF false s0 = (s1, Except.ok ()) → ap s1 = (s2, Except.ok ()) →
      (apply_retrying (countScan scanF) (countAp ap) (s0, 0)).1.2 = 1) := by
  refine ⟨?_, ?_, ?_, ?_, ?_, ?_⟩
  · intro s1 e h1
    simp [apply_retrying, h1]
  · intro s1 s2 h1 h2
    simp [apply_retrying, h1, h2]
  · intro s1 s2 e s3 h1 h2 h3
    simp [apply_retrying, h1, h2, h3]
  · intro s1 s2 e s3 e2 h1 h2 h3
    simp [apply_retrying, h1, h2, h3]
  · rcases hs : scanF false s0 with ⟨s1, r1⟩
    cases r1 with
    | error e => simp [apply_retrying, countScan, hs]
    | ok u =>
      rcases ha : ap s1 with ⟨s2, r2⟩
      cases r2 with
      | ok v => simp [apply_retrying, countScan, countAp, hs, ha]
      | error e =>
        rcases hs2 : scanF true s2 with ⟨s3, r3⟩
        cases r3 with
        | error e2 => simp [apply_retrying, countScan, countAp, hs, ha, hs2]
        | ok v =>
          rcases ha2 : ap s3 with ⟨s4, r4⟩
          simp [apply_retrying, countScan, countAp, hs, ha, hs2, ha2]
  · intro s1 s2 h1 h2
    simp [apply_retrying, countScan, countAp, h1, h2]

/-- C2 witness: a success-first run, its attempt counter, and a run whose
first attempt fails, rescans forced, and surfaces the second failure. -/
theorem c2_witness :
    apply_retrying (fun (_ : Bool) (s : Nat) => (s + 1, (Except.ok () : Except Nat Unit)))
      (fun s => (s * 10, Except.ok ())) 0 = (10, Except.ok ()) ∧
    (apply_retrying (countScan (fun (_ : Bool) (s : Nat) => (s + 1, (Except.ok () : Except Nat Unit))))
      (countAp (fun s => (s * 10, Except.ok ()))) (0, 0)).1.2 = 1 ∧
    apply_retrying (fun (_ : Bool) (s : Nat) => (s + 1, (Except.ok () : Except Nat Unit)))
      (fun s => (s, Except.error 7)) 0 = (2, Except.error 7) := by
  refine ⟨?_, ?_, ?_⟩
  · exact (c2_apply_retrying _ _ _).2.1 1 10 rfl rfl
  · exact (c2_apply_retrying _ _ _).2.2.2.2.2 1 10 rfl rfl
  · exact ((c2_apply_retrying _ _ _).2.2.1 1 1 7 2 rfl rfl rfl).trans rfl

/-- Updating the slot of one name changes exactly that lookup. -/
lemma alLookup_bagUpdate (b : NetVarBag) (n : VarName)
    (f : SimpleNetVar → SimpleNetVar) (x : VarName) :
    alLookup (bagUpdate b n f) x =
      if x = n then Option.map f (alLookup b n) else alLookup b x := by
  induction b with
  | nil => simp [bagUpdate, alLookup]
  | cons p rest ih =>
    obtain ⟨k, nv⟩ := p
    by_cases hk : k = n
    · subst hk
      by_cases hx : x = k <;> simp [bagUpdate, alLookup, hx]
    · by_cases hx : x = k
      · subst hx
        simp [bagUpdate, alLookup, Ne.symm hk, hk]
      · simp [bagUpdate, alLookup, hx, hk, Ne.symm hk, ih]

/-- Names untouched by the response pairs keep their slot. -/
lemma writeFold_unchanged (pairs : List (String × Value)) :
    ∀ (b : NetVarBag) (vn : VarName), (∀ pr ∈ pairs, name_of pr.1 ≠ some vn) →
      alLookup (writeFold b pairs) vn = alLookup b vn := by
  induction pairs with
  | nil => intro b vn _; rfl
  | cons pr rest ih =>
    intro b vn h
    have hpr : name_of pr.1 ≠ some vn := h pr (List.mem_cons_self pr rest)
    have hrest : ∀ q ∈ rest, name_of q.1 ≠ some vn :=
      fun q hq => h q (List.mem_cons_of_mem pr hq)
    rcases hn : name_of pr.1 with _ | vn'
    · rw [show writeFold b (pr :: rest) = writeFold b rest by simp [writeFold, hn]]
      exact ih b vn hrest
    · have hne : vn ≠ vn' := fun he => hpr (by rw [hn, he])
      by_cases hl : (alLookup b vn').isSome
      · rw [show writeFold b (pr :: rest) = writeFold (bagUpdate b vn'
            (fun nv => (nv.clear_net_write_pending).net_set pr.2)) rest by
          simp [writeFold, hn, hl]]
        rw [ih _ vn hrest, alLookup_bagUpdate]
        simp [hne]
      · rw [show writeFold b (pr :: rest) = writeFold b rest by simp [writeFold, hn, hl]]
        exact ih b vn hrest

/-- The last response pair naming a slot of the bag determines its final
state: write-pending cleared, read-pending cleared, value taken from the
positionally paired element of `p`. -/
lemma writeFold_applied (pairs : List (String × Value)) :
    ∀ (b : NetVarBag) (i : Nat) (vn : VarName) (hi : i < pairs.length),
      name_of (pairs.get ⟨i, hi⟩).1 = some vn →
      (∀ j (hj : j < pairs.length), i < j → name_of (pairs.get ⟨j, hj⟩).1 ≠ some vn) →
      (alLookup b vn).isSome = true →
      alLookup (writeFold b pairs) vn =
        some { value := (pairs.get ⟨i, hi⟩).2
             , net_read_pending := false, net_write_pending := false } := by
  induction pairs with
  | nil => intro b i vn hi; exact absurd hi (by simp)
  | cons pr rest ih =>
    intro b i vn hi hname hlast hsome
    cases i with
    | zero =>
      have hpr : name_of pr.1 = some vn := hname
      have hb1 : alLookup (bagUpdate b vn
          (fun nv => (nv.clear_net_write_pending).net_set pr.2)) vn =
          some { value := pr.2, net_read_pending := false, net_write_pending := false } := by
        rw [alLookup_bagUpdate]
        obtain ⟨nv0, hnv0⟩ := Option.isSome_iff_exists.mp hsome
        simp [hnv0, SimpleNetVar.clear_net_write_pending, SimpleNetVar.net_set]
      have hrest : ∀ q ∈ rest, name_of q.1 ≠ some vn := by
        intro q hq
        obtain ⟨⟨j, hj⟩, hqe⟩ := List.mem_iff_get.mp hq
        have := hlast (j + 1) (by simpa using Nat.succ_lt_succ hj) (Nat.succ_pos j)
        rw [← hqe]
        simpa using this
      rw [show writeFold b (pr :: rest) = writeFold (bagUpdate b vn
          (fun nv => (nv.clear_net_write_pending).net_set pr.2)) rest by
        simp [writeFold, hpr, hsome]]
      rw [writeFold_unchanged rest _ vn hrest]
      exact hb1
    | succ i' =>
      have hname' : name_of (rest.get ⟨i', Nat.lt_of_succ_lt_succ hi⟩).1 = some vn := hname
      have hlast' : ∀ j (hj : j < rest.length), i' < j →
          name_of (rest.get ⟨j, hj⟩).1 ≠ some vn := by
        intro j hj hij
        have := hlast (j + 1) (by simpa using Nat.succ_lt_succ hj) (Nat.succ_lt_succ hij)
        simpa using this
      have hsome' : ∀ b1 : NetVarBag, (alLookup b1 vn).isSome = true →
          alLookup (writeFold b1 rest) vn =
            some { value := (rest.get ⟨i', Nat.lt_of_succ_lt_succ hi⟩).2
                 , net_read_pending := false, net_write_pending := false } :=
        fun b1 h1 => ih b1 i' vn (Nat.lt_of_succ_lt_succ hi) hname' hlast' h1
      rcases hn : name_of pr.1 with _ | vn'
      · rw [show writeFold b (pr :: rest) = writeFold b rest by simp [writeFold, hn]]
        exact hsome' b hsome
      · by_cases hl : (alLookup b vn').isSome
        · have hb1some : (alLookup (bagUpdate b vn'
              (fun nv => (nv.clear_net_write_pending).net_set pr.2)) vn).isSome = true := by
            rw [alLookup_bagUpdate]
            by_cases hvv : vn = vn'
            · subst hvv
              simpa using hl
            · simpa [hvv] using hsome
          rw [show writeFold b (pr :: rest) = writeFold (bagUpdate b vn'
              (fun nv => (nv.clear_net_write_pending).net_set pr.2)) rest by
            simp [writeFold, hn, hl]]
          exact hsome' _ hb1some
        · rw [show writeFold b (pr :: rest) = writeFold b rest by simp [writeFold, hn, hl]]
          exact hsome' b hsome

/-- C7: `net_write` on a bound device.  With no write-pending slot it
performs no exchange (the result is Ok for every exchange oracle).  With at
least one pending slot it issues one Command exchange carrying exactly the
pending name and value vectors, and folds the response by pairing the
echoed `opt` names positionally with `p` — `val` does not enter the fold.
For each response name that resolves through `name_of` to a slot of the bag
(taking the last occurrence on duplicates), the final slot has
`write_pending` cleared and the value from `p`; response names not in the
bag leave it untouched. -/
theorem c7_net_write (mac : String) (dev : Device)
    (exch : IpAddr → String → List VarName → List Value → Except Error CommandResponsePack)
    (bag : NetVarBag) (key : String) (hkey : dev.key = some key) :
    (pendingWrites bag = [] →
      ∀ ex2 : IpAddr → String → List VarName → List Value → Except Error CommandResponsePack,
        GreeInternal.net_write mac dev ex2 bag = Except.ok bag) ∧
    (∀ pack : CommandResponsePack, pendingWrites bag ≠ [] →
      exch dev.ip key ((pendingWrites bag).map Prod.fst) ((pendingWrites bag).map Prod.snd) =
        Except.ok pack →
      GreeInternal.net_write mac dev exch bag =
        Except.ok (writeFold bag (pack.opt.zip pack.p))) ∧
    (∀ (pairs : List (String × Value)) (b : NetVarBag) (vn : VarName),
      (∀ pr ∈ pairs, name_of pr.1 ≠ some vn) →
      alLookup (writeFold b pairs) vn = alLookup b vn) ∧
    (∀ (pairs : List (String × Value)) (b : NetVarBag) (i : Nat) (vn : VarName)
      (hi : i < pairs.length),
      name_of (pairs.get ⟨i, hi⟩).1 = some vn →
      (∀ j (hj : j < pairs.length), i < j → name_of (pairs.get ⟨j, hj⟩).1 ≠ some vn) →
      (alLookup b vn).isSome = true →
      alLookup (writeFold b pairs) vn =
        some { value := (pairs.get ⟨i, hi⟩).2
             , net_read_pending := false, net_write_pending := false }) := by
  refine ⟨?_, ?_, fun pairs => writeFold_unchanged pairs, fun pairs => writeFold_applied pairs⟩
  · intro h ex2
    simp [GreeInternal.net_write, hkey, h]
  · intro pack hne hex
    simp [GreeInternal.net_write, hkey, hne, hex]

/-- C7 witness: a bag with one pending write of `Pow` and one quiescent
slot; the device echoes `opt = [Pow]` with `p = [0]` while `val = [9]`; the
final `Pow` slot takes the value 0 from `p`, with both flags cleared. -/
theorem c7_witness :
    GreeInternal.net_write "a1b2"
      { ip := 7, scan_result := packA, key := some "sk" }
      (fun _ _ _ _ => Except.ok
        { t := "res", mac := "a1b2", r := 200, opt := ["Pow"]
        , p := [Value.num 0], val := [Value.num 9] })
      [("Pow", { value := Value.num 1, net_read_pending := false, net_write_pending := true }),
       ("Mod", { value := Value.null, net_read_pending := true, net_write_pending := false })] =
    Except.ok
      [("Pow", { value := Value.num 0, net_read_pending := false, net_write_pending := false }),
       ("Mod", { value := Value.null, net_read_pending := true, net_write_pending := false })] := by
  refine ((c7_net_write "a1b2"
      { ip := 7, scan_result := packA, key := some "sk" }
      (fun _ _ _ _ => Except.ok
        { t := "res", mac := "a1b2", r := 200, opt := ["Pow"]
        , p := [Value.num 0], val := [Value.num 9] })
      [("Pow", { value := Value.num 1, net_read_pending := false, net_write_pending := true }),
       ("Mod", { value := Value.null, net_read_pending := true, net_write_pending := false })]
      "sk" rfl).2.1
      { t := "res", mac := "a1b2", r := 200, opt := ["Pow"]
      , p := [Value.num 0], val := [Value.num 9] }
      (by decide) rfl).trans ?_
  rfl

/-- Step equation of the receive loop on a datagram event. -/
lemma scanLoop_datagram (h : IpAddr → GenericMessage → Except Error ScanResponsePack)
    (n : Nat) (a : IpAddr) (gm : GenericMessage) (rest : List RecvEv)
    (acc : List (IpAddr × GenericMessage × ScanResponsePack)) :
    scanLoop h (n + 1) (RecvEv.datagram a gm :: rest) acc =
      match h a gm with
      | Except.error e => Except.error e
      | Except.ok pack => scanLoop h n rest (acc ++ [(a, gm, pack)]) := rfl

/-- The scan receive loop never collects more than its fuel allows. -/
lemma scanLoop_length (h : IpAddr → GenericMessage → Except Error ScanResponsePack) :
    ∀ (n : Nat) (evs : List RecvEv) (acc rv : List (IpAddr × GenericMessage × ScanResponsePack)),
      scanLoop h n evs acc = Except.ok rv → rv.length ≤ acc.length + n := by
  intro n
  induction n with
  | zero =>
    intro evs acc rv hrv
    cases hrv
    simp
  | succ m ih =>
    intro evs acc rv hrv
    cases evs with
    | nil =>
      cases hrv
      simp
    | cons ev rest =>
      cases ev with
      | timeout =>
        cases hrv
        simp
      | datagram a gm =>
        rw [scanLoop_datagram] at hrv
        rcases hp : h a gm with e | pack <;> rw [hp] at hrv
        · exact absurd hrv (by simp)
        · have hb := ih rest (acc ++ [(a, gm, pack)]) rv hrv
          have hl : (acc ++ [(a, gm, pack)]).length = acc.length + 1 := by simp
          omega

/-- C8: `GreeClient::scan` treats a receive timeout (or an exhausted event
stream) as normal termination, returning Ok with the devices collected so
far, and the loop runs at most `max_count` iterations, so an Ok result
holds at most `max_count` devices and the scan stops as soon as the count
is reached. -/
theorem c8_scan_timeout (h : IpAddr → GenericMessage → Except Error ScanResponsePack)
    (events : List RecvEv) (mc : Nat) :
    (∀ rv, GreeClient.scan h events mc = Except.ok rv → rv.length ≤ mc) ∧
    (∀ (n : Nat) (evs : List RecvEv) (acc : List (IpAddr × GenericMessage × ScanResponsePack)),
      scanLoop h (n + 1) (RecvEv.timeout :: evs) acc = Except.ok acc) ∧
    (∀ (n : Nat) (acc : List (IpAddr × GenericMessage × ScanResponsePack)),
      scanLoop h (n + 1) [] acc = Except.ok acc) ∧
    (∀ (evs : List RecvEv) (acc : List (IpAddr × GenericMessage × ScanResponsePack)),
      scanLoop h 0 evs acc = Except.ok acc) := by
  refine ⟨?_, fun n evs acc => rfl, fun n acc => rfl, fun evs acc => rfl⟩
  intro rv hrv
  simpa using scanLoop_length h mc events [] rv hrv

/-- C8 witness: two devices reply, then the timeout fires with three slots
of fuel left; the scan returns the two devices and the bound holds. -/
theorem c8_witness :
    GreeClient.scan (fun _ _ => Except.ok packA)
      [RecvEv.datagram 1 gmA, RecvEv.datagram 2 gmA, RecvEv.timeout] 5 =
      Except.ok [(1, gmA, packA), (2, gmA, packA)] ∧
    (2 : Nat) ≤ 5 := by
  refine ⟨rfl, ?_⟩
  have hbound := (c8_scan_timeout (fun _ _ => Except.ok packA)
    [RecvEv.datagram 1 gmA, RecvEv.datagram 2 gmA, RecvEv.timeout] 5).1
    [(1, gmA, packA), (2, gmA, packA)] rfl
  simp only [List.length_cons, List.length_nil] at hbound
  exact hbound

/-- Reaching a datagram whose pack fails to handle aborts the whole scan
with that error, regardless of what was already collected. -/
lemma scanLoop_error (h : IpAddr → GenericMessage → Except Error ScanResponsePack)
    (a : IpAddr) (gm : GenericMessage) (e : Error) (evs : List RecvEv)
    (hbad : h a gm = Except.error e) :
    ∀ (pre : List (IpAddr × GenericMessage)) (n : Nat)
      (acc : List (IpAddr × GenericMessage × ScanResponsePack)),
      pre.length < n → (∀ x ∈ pre, ∃ pack, h x.1 x.2 = Except.ok pack) →
      scanLoop h n (pre.map (fun x => RecvEv.datagram x.1 x.2) ++ RecvEv.datagram a gm :: evs)
        acc = Except.error e := by
  intro pre
  induction pre with
  | nil =>
    intro n acc hn _
    cases n with
    | zero => exact absurd hn (by simp)
    | succ m =>
      rw [List.map_nil, List.nil_append, scanLoop_datagram, hbad]
  | cons x pre' ih =>
    intro n acc hn hok
    cases n with
    | zero => exact absurd hn (by simp)
    | succ m =>
      obtain ⟨pack, hp⟩ := hok x (List.mem_cons_self x pre')
      rw [List.map_cons, List.cons_append, scanLoop_datagram, hp]
      exact ih m _ (by simpa using Nat.lt_of_succ_lt_succ hn)
        (fun y hy => hok y (List.mem_cons_of_mem x hy))

/-- C10: if, within the first `max_count` receive slots, some datagram of a
scan fails to handle (base64, decryption or parse failure of its pack),
`GreeClient::scan` returns that error — the devices already collected in
this scan are discarded with the Ok result; only a timeout or the
`max_count` bound ends a scan with the devices collected so far. -/
theorem c10_scan_error_aborts (h : IpAddr → GenericMessage → Except Error ScanResponsePack)
    (pre : List (IpAddr × GenericMessage)) (a : IpAddr) (gm : GenericMessage) (e : Error)
    (evs : List RecvEv) (mc : Nat)
    (hpre : ∀ x ∈ pre, ∃ pack, h x.1 x.2 = Except.ok pack)
    (hlen : pre.length < mc)
    (hbad : h a gm = Except.error e) :
    GreeClient.scan h
      (pre.map (fun x => RecvEv.datagram x.1 x.2) ++ RecvEv.datagram a gm :: evs) mc =
      Except.error e :=
  scanLoop_error h a gm e evs hbad pre mc [] hlen hpre

/-- C10 witness: one good datagram, then one whose handling fails; the scan
surfaces the error and the good device is discarded. -/
theorem c10_witness :
    GreeClient.scan
      (fun i _ => if i = 1 then Except.ok packA else Except.error Error.SerDe)
      [RecvEv.datagram 1 gmA, RecvEv.datagram 2 gmA] 3 =
      Except.error Error.SerDe := by
  have := c10_scan_error_aborts
    (fun i _ => if i = 1 then Except.ok packA else Except.error Error.SerDe)
    [(1, gmA)] 2 gmA Error.SerDe [] 3
    (by intro x hx; simp at hx; subst hx; exact ⟨packA, rfl⟩)
    (by decide) rfl
  simpa using this

/-- Decoding inverts encoding on the base64 alphabet. -/
lemma b64idx_b64chr : ∀ n, n < 64 → b64idx (b64chr n) = some n := by decide

/-- Alphabet characters are never the padding character. -/
lemma b64chr_ne_pad : ∀ n, n < 64 → b64chr n ≠ '=' := by decide

/-- Standard base64 decode is a left inverse of encode on byte lists. -/
theorem b64_roundtrip : ∀ l : List Nat, (∀ x ∈ l, x < 256) →
    b64decode (b64encode l) = some l
  | [] => fun _ => rfl
  | [b0] => fun h => by
    have hb0 : b0 < 256 := h b0 (by simp)
    have i1 := b64idx_b64chr (b0 / 4) (by omega)
    have i2 := b64idx_b64chr (b0 % 4 * 16) (by omega)
    have e2 : b0 % 4 * 16 % 16 = 0 := by omega
    simp [b64encode, b64decode, i1, i2, e2]
    omega
  | [b0, b1] => fun h => by
    have hb0 : b0 < 256 := h b0 (by simp)
    have hb1 : b1 < 256 := h b1 (by simp)
    have i1 := b64idx_b64chr (b0 / 4) (by omega)
    have i2 := b64idx_b64chr (b0 % 4 * 16 + b1 / 16) (by omega)
    have i3 := b64idx_b64chr (b1 % 16 * 4) (by omega)
    have hne2 := b64chr_ne_pad (b1 % 16 * 4) (by omega)
    have e2 : (b1 % 16 * 4) % 4 = 0 := by omega
    simp [b64encode, b64decode, i1, i2, i3, hne2, e2]
    omega
  | b0 :: b1 :: b2 :: rest => fun h => by
    have hb0 : b0 < 256 := h b0 (by simp)
    have hb1 : b1 < 256 := h b1 (by simp)
    have hb2 : b2 < 256 := h b2 (by simp)
    have ih := b64_roundtrip rest (fun x hx => h x (by simp [hx]))
    have i1 := b64idx_b64chr (b0 / 4) (by omega)
    have i2 := b64idx_b64chr (b0 % 4 * 16 + b1 / 16) (by omega)
    have i3 := b64idx_b64chr (b1 % 16 * 4 + b2 / 64) (by omega)
    have i4 := b64idx_b64chr (b2 % 64) (by omega)
    have hne2 := b64chr_ne_pad (b1 % 16 * 4 + b2 / 64) (by omega)
    have hne3 := b64chr_ne_pad (b2 % 64) (by omega)
    simp [b64encode, b64decode, i1, i2, i3, i4, hne2, hne3, ih]
    omega

/-- The block loop on the empty list, at any fuel. -/
lemma ecbGo_nil (f : List Nat → List Nat) (fuel : Nat) : ecbGo f fuel [] = some [] := by
  cases fuel <;> rfl

/-- Step equation of the block loop. -/
lemma ecbGo_cons (f : List Nat → List Nat) (fuel : Nat) (b : Nat) (bs : List Nat) :
    ecbGo f (fuel + 1) (b :: bs) =
      if (b :: bs).length < 16 then none
      else
        match ecbGo f fuel ((b :: bs).drop 16) with
        | none => none
        | some tl => some (f ((b :: bs).take 16) ++ tl) := rfl

/-- The block loop ignores fuel beyond the list length. -/
lemma ecbGo_fuel_irrel (f : List Nat → List Nat) :
    ∀ (m n : Nat) (bs : List Nat), bs.length ≤ m → bs.length ≤ n →
      ecbGo f m bs = ecbGo f n bs := by
  intro m
  induction m with
  | zero =>
    intro n bs h0 _
    have : bs = [] := List.length_eq_zero.mp (Nat.le_zero.mp h0)
    subst this
    rw [ecbGo_nil, ecbGo_nil]
  | succ m ih =>
    intro n bs h1 h2
    cases bs with
    | nil => rw [ecbGo_nil, ecbGo_nil]
    | cons b tl =>
      cases n with
      | zero => simp at h2
      | succ n' =>
        rw [ecbGo_cons, ecbGo_cons]
        by_cases hlt : (b :: tl).length < 16
        · rw [if_pos hlt, if_pos hlt]
        · rw [if_neg hlt, if_neg hlt]
          have hd : ((b :: tl).drop 16).length ≤ m := by
            simp only [List.length_drop] at *
            omega
          have hd' : ((b :: tl).drop 16).length ≤ n' := by
            simp only [List.length_drop] at *
            omega
          rw [ih n' _ hd hd']

/-- Processing a leading complete block. -/
lemma ecbLoop_append_block (f : List Nat → List Nat) (a rest : List Nat)
    (ha : a.length = 16) :
    ecbLoop f (a ++ rest) =
      match ecbLoop f rest with
      | none => none
      | some tl => some (f a ++ tl) := by
  rcases a with _ | ⟨b, a'⟩
  · simp at ha
  unfold ecbLoop
  have hlen : ((b :: a') ++ rest).length = 16 + rest.length := by
    simp at ha ⊢
    omega
  rw [show (b :: a') ++ rest = b :: (a' ++ rest) from rfl] at hlen ⊢
  rw [show (b :: (a' ++ rest)).length = (15 + rest.length) + 1 by omega]
  rw [ecbGo_cons]
  rw [if_neg (by simp at ha ⊢; omega)]
  have htake : (b :: (a' ++ rest)).take 16 = b :: a' := by
    rw [show b :: (a' ++ rest) = (b :: a') ++ rest from rfl, ← ha]
    exact List.take_left _ _
  have hdrop : (b :: (a' ++ rest)).drop 16 = rest := by
    rw [show b :: (a' ++ rest) = (b :: a') ++ rest from rfl, ← ha]
    exact List.drop_left _ _
  rw [htake, hdrop, ecbGo_fuel_irrel f (15 + rest.length) rest.length rest (by omega) le_rfl]

/-- A nonempty list shorter than a block makes the loop panic. -/
lemma ecbLoop_short (f : List Nat → List Nat) (bs : List Nat)
    (hne : bs ≠ []) (hlt : bs.length < 16) : ecbLoop f bs = none := by
  rcases bs with _ | ⟨b, tl⟩
  · exact absurd rfl hne
  unfold ecbLoop
  rw [show (b :: tl).length = tl.length + 1 from rfl, ecbGo_cons, if_pos (by simpa using hlt)]

/-- On multiple-of-16 input the loop succeeds. -/
lemma ecbLoop_aligned (f : List Nat → List Nat) :
    ∀ (fuel : Nat) (bs : List Nat), bs.length ≤ fuel → bs.length % 16 = 0 →
      ∃ out, ecbLoop f bs = some out := by
  intro fuel
  induction fuel with
  | zero =>
    intro bs h0 _
    have : bs = [] := List.length_eq_zero.mp (Nat.le_zero.mp h0)
    subst this
    exact ⟨[], rfl⟩
  | succ m ih =>
    intro bs hle hal
    rcases eq_or_ne bs [] with rfl | hne
    · exact ⟨[], rfl⟩
    · have hpos : 0 < bs.length := List.length_pos.mpr hne
      have hge : 16 ≤ bs.length := by omega
      have hsplit : bs.take 16 ++ bs.drop 16 = bs := List.take_append_drop 16 bs
      have ht : (bs.take 16).length = 16 := by
        simp [List.length_take]
        omega
      obtain ⟨out, hout⟩ := ih (bs.drop 16)
        (by simp [List.length_drop]; omega)
        (by simp [List.length_drop]; omega)
      refine ⟨f (bs.take 16) ++ out, ?_⟩
      have hblock := ecbLoop_append_block f (bs.take 16) (bs.drop 16) ht
      rw [hsplit] at hblock
      rw [hblock, hout]

/-- On input of length not a multiple of 16 the loop panics. -/
lemma ecbLoop_misaligned (f : List Nat → List Nat) :
    ∀ (fuel : Nat) (bs : List Nat), bs.length ≤ fuel → bs.length % 16 ≠ 0 →
      ecbLoop f bs = none := by
  intro fuel
  induction fuel with
  | zero =>
    intro bs h0 hal
    have : bs = [] := List.length_eq_zero.mp (Nat.le_zero.mp h0)
    subst this
    simp at hal
  | succ m ih =>
    intro bs hle hal
    rcases eq_or_ne bs [] with rfl | hne
    · simp at hal
    · by_cases hlt : bs.length < 16
      · exact ecbLoop_short f bs hne hlt
      · have hsplit : bs.take 16 ++ bs.drop 16 = bs := List.take_append_drop 16 bs
        have ht : (bs.take 16).length = 16 := by
          simp [List.length_take]
          omega
        have hout := ih (bs.drop 16)
          (by simp [List.length_drop]; omega)
          (by simp [List.length_drop]; omega)
        have hblock := ecbLoop_append_block f (bs.take 16) (bs.drop 16) ht
        rw [hsplit] at hblock
        rw [hblock, hout]

/-- ECB round trip with fuel: encrypting aligned in-range data block by
block succeeds and decrypting the result restores the input, given the
cipher contract on 16-byte blocks (AES-128 under any key satisfies it). -/
lemma ecb_roundtrip_aux (enc dec : List Nat → List Nat)
    (hc : ∀ blk, blk.length = 16 → (∀ x ∈ blk, x < 256) →
      (enc blk).length = 16 ∧ (∀ x ∈ enc blk, x < 256) ∧ dec (enc blk) = blk) :
    ∀ (fuel : Nat) (bs : List Nat), bs.length ≤ fuel →
      bs.length % 16 = 0 → (∀ x ∈ bs, x < 256) →
      ∃ ct, ecbLoop enc bs = some ct ∧ (∀ x ∈ ct, x < 256) ∧
        ecbLoop dec ct = some bs := by
  intro fuel
  induction fuel with
  | zero =>
    intro bs h0 _ _
    have : bs = [] := List.length_eq_zero.mp (Nat.le_zero.mp h0)
    subst this
    exact ⟨[], rfl, by simp, rfl⟩
  | succ m ih =>
    intro bs hle hal hb
    rcases eq_or_ne bs [] with rfl | hne
    · exact ⟨[], rfl, by simp, rfl⟩
    · have hpos : 0 < bs.length := List.length_pos.mpr hne
      have hge : 16 ≤ bs.length := by omega
      have hsplit : bs.take 16 ++ bs.drop 16 = bs := List.take_append_drop 16 bs
      have ht : (bs.take 16).length = 16 := by
        simp [List.length_take]
        omega
      have hbt : ∀ x ∈ bs.take 16, x < 256 :=
        fun x hx => hb x (List.mem_of_mem_take hx)
      obtain ⟨hl16, hbnd, hdec⟩ := hc (bs.take 16) ht hbt
      obtain ⟨ct', h1, h2, h3⟩ := ih (bs.drop 16)
        (by simp [List.length_drop]; omega)
        (by simp [List.length_drop]; omega)
        (fun x hx => hb x (List.mem_of_mem_drop hx))
      refine ⟨enc (bs.take 16) ++ ct', ?_, ?_, ?_⟩
      · have hblock := ecbLoop_append_block enc (bs.take 16) (bs.drop 16) ht
        rw [hsplit] at hblock
        rw [hblock, h1]
      · intro x hx
        rcases List.mem_append.mp hx with h | h
        exacts [hbnd x h, h2 x h]
      · rw [ecbLoop_append_block dec _ _ hl16, h3, hdec]
        exact congrArg some hsplit

/-- The PKCS7-padded payload is block aligned. -/
lemma pkcs7_pad_aligned (p : List Nat) : (pkcs7_pad p 16).length % 16 = 0 := by
  simp only [pkcs7_pad, List.length_append, List.length_replicate]
  omega

/-- Padding keeps bytes in range (the pad byte is at most 16). -/
lemma pkcs7_pad_bytes (p : List Nat) (hb : ∀ x ∈ p, x < 256) :
    ∀ x ∈ pkcs7_pad p 16, x < 256 := by
  intro x hx
  rcases List.mem_append.mp hx with h | h
  · exact hb x h
  · have := (List.eq_of_mem_replicate h)
    omega

/-- Unpadding undoes padding: the pad length is between 1 and 16, it is the
final byte, and dropping that many bytes restores the payload. -/
lemma pkcs7_unpad_pad (p : List Nat) : pkcs7_unpad (pkcs7_pad p 16) = p := by
  show pkcs7_unpad (p ++ List.replicate (16 - p.length % 16) (16 - p.length % 16)) = p
  obtain ⟨k, hk, hk1⟩ : ∃ k, 16 - p.length % 16 = k ∧ 1 ≤ k := ⟨_, rfl, by omega⟩
  rw [hk]
  obtain ⟨k', rfl⟩ : ∃ k', k = k' + 1 := ⟨k - 1, by omega⟩
  rw [List.replicate_succ' k' (k' + 1), ← List.append_assoc]
  unfold pkcs7_unpad
  rw [List.getLast?_concat]
  show List.take (((p ++ List.replicate k' (k' + 1)) ++ [k' + 1]).length - (k' + 1))
      ((p ++ List.replicate k' (k' + 1)) ++ [k' + 1]) = p
  have hlen : ((p ++ List.replicate k' (k' + 1)) ++ [k' + 1]).length = p.length + (k' + 1) := by
    simp
  rw [hlen, show p.length + (k' + 1) - (k' + 1) = p.length by omega, List.append_assoc]
  exact List.take_left _ _

/-- C5 as amended: the round trip restores the payload for every byte
payload that UTF-8 lossy conversion leaves intact (in particular every
serialized JSON payload the crate feeds it), for every block-cipher pair
satisfying the AES contract — `dec (enc blk) = blk` on in-range 16-byte
blocks, preserving length and range, as AES-128 under any 16-byte key
does.  (For payloads that are not valid UTF-8, the final
`String::from_utf8_lossy` step of `decode_response` substitutes
replacement characters: see the counterexample.) -/
theorem c5_roundtrip (enc dec : List Nat → List Nat)
    (hc : ∀ blk, blk.length = 16 → (∀ x ∈ blk, x < 256) →
      (enc blk).length = 16 ∧ (∀ x ∈ enc blk, x < 256) ∧ dec (enc blk) = blk)
    (p : List Nat) (hp : ∀ x ∈ p, x < 256) (hu : utf8Lossy p = p) :
    roundTrip enc dec p = DecodeResult.ok p := by
  obtain ⟨ct, h1, h2, h3⟩ := ecb_roundtrip_aux enc dec hc (pkcs7_pad p 16).length
    (pkcs7_pad p 16) le_rfl (pkcs7_pad_aligned p) (pkcs7_pad_bytes p hp)
  simp only [roundTrip, encode_request, decode_response, h1, b64_roundtrip ct h2, h3,
    pkcs7_unpad_pad, hu]

/-- C5 counterexample: the claim quantifies over every byte payload, but a
payload that is not valid UTF-8 does not survive the round trip: the byte
0xFF comes back as the replacement character U+FFFD.  The failure is
independent of the cipher (the decrypt step returns the exact encrypted
block either way), exhibited here with the identity block maps, which
satisfy the block-cipher contract used above. -/
theorem c5_counterexample :
    roundTrip id id [255] = DecodeResult.ok utf8Repl ∧
    utf8Repl ≠ [255] := by
  constructor
  · decide
  · decide

/-- C5 witness for the amended round trip, at the identity block maps (they
satisfy the contract) and the ASCII payload "hi". -/
theorem c5_witness : roundTrip id id [104, 105] = DecodeResult.ok [104, 105] :=
  c5_roundtrip id id
    (fun blk h1 h2 => ⟨h1, h2, rfl⟩)
    [104, 105] (by decide) (by decide)

/-- C6 as amended: `decode_response` returns the base64 `CryptoError`
exactly when base64 decoding fails; when base64 succeeds it returns Ok if
the decoded ciphertext length is a multiple of 16, but it panics (slice
index out of range in the decrypt loop) — rather than returning an error —
when that length is not a multiple of 16. -/
theorem c6_decode_total (dec : List Nat → List Nat) (pack : List Char) :
    (b64decode pack = none → decode_response dec pack = DecodeResult.cryptoError) ∧
    (∀ payload, b64decode pack = some payload → payload.length % 16 ≠ 0 →
      decode_response dec pack = DecodeResult.panicked) ∧
    (∀ payload, b64decode pack = some payload → payload.length % 16 = 0 →
      ∃ s, decode_response dec pack = DecodeResult.ok s) := by
  refine ⟨?_, ?_, ?_⟩
  · intro h
    simp [decode_response, h]
  · intro payload h hal
    have hnone := ecbLoop_misaligned dec payload.length payload le_rfl hal
    simp [decode_response, h, hnone]
  · intro payload h hal
    obtain ⟨out, hout⟩ := ecbLoop_aligned dec payload.length payload le_rfl hal
    exact ⟨utf8Lossy (pkcs7_unpad out), by simp [decode_response, h, hout]⟩

/-- C6 counterexample: "AAAA" base64-decodes to the three bytes 0,0,0 — a
length that is not a multiple of 16 — and `decode_response` panics on the
out-of-range slice instead of producing the CryptoError the claim
promises. -/
theorem c6_counterexample :
    decode_response id ['A', 'A', 'A', 'A'] = DecodeResult.panicked ∧
    DecodeResult.panicked ≠ DecodeResult.cryptoError := by
  constructor
  · decide
  · decide

/-- C6 witness: the panic case at the concrete pack "AAAA", and the Ok case
at a 24-character pack that decodes to 16 zero bytes. -/
theorem c6_witness :
    decode_response id ['A', 'A', 'A', 'A'] = DecodeResult.panicked ∧
    (∃ s, decode_response id ("AAAAAAAAAAAAAAAAAAAAAA==".toList) = DecodeResult.ok s) := by
  constructor
  · exact (c6_decode_total id ['A', 'A', 'A', 'A']).2.1 [0, 0, 0] (by decide) (by decide)
  · exact (c6_decode_total id ("AAAAAAAAAAAAAAAAAAAAAA==".toList)).2.2
      (List.replicate 16 0) (by decide) (by decide)

end GreeModel
